import Mathlib

/-!
Verification of the word-match cascade engine against its source.

The definitions below are a shallow embedding of the JavaScript sources:
`src/core/Tile.js`, `src/core/Grid.js`, `src/systems/EffectsQueue.js` and
`src/systems/InputSystem.js`.  Purely visual code (sprites, tweens, particle
systems, console logging) has no game-state effect and is omitted; every
game-state mutation is carried over field by field.  Stateful methods become
functions from the relevant record to an updated record; values read from the
environment (configuration registry, wall clock, user agent, frame counter,
random draws) become explicit parameters.
-/

namespace WordMatch

/-- Tile lifecycle states, mirroring the TILE_STATES table of src/core/Tile.js. -/
inductive TState where
  | normal
  | destabilized
  | exploding
  | falling
deriving DecidableEq, Repr

/-- Tile categories, mirroring the TILE_TYPES table of src/core/Tile.js. -/
inductive TType where
  | normal
  | bomb
  | ice
  | stone
  | multiplier
  | hidden
deriving DecidableEq, Repr

/-- Game-state fields of the Tile class (src/core/Tile.js constructor).
Visual-only fields (sprite, container, text objects, selection highlight) are
omitted.  The `id` field stands for JavaScript object identity, so that grids
and movement records can refer to one particular tile. -/
structure Tile where
  id : Nat
  gridX : Nat
  gridY : Nat
  letter : Char
  value : Nat
  type : TType
  state : TState
  health : Int
  surgeCount : Nat
  isRevealed : Bool
deriving DecidableEq, Repr

/-- Initial health by category, from Tile.getInitialHealth: Ice and Hidden
start at 2, Stone at 4, every other category at 1. -/
def getInitialHealth : TType → Int
  | TType.ice => 2
  | TType.hidden => 2
  | TType.stone => 4
  | _ => 1

/-- The Tile constructor: state starts Normal, health from getInitialHealth,
surgeCount 0, and isRevealed false exactly for Hidden tiles. -/
def mkTile (id gridX gridY : Nat) (letter : Char) (value : Nat) (type : TType) : Tile :=
  { id := id
    gridX := gridX
    gridY := gridY
    letter := letter
    value := value
    type := type
    state := TState.normal
    health := getInitialHealth type
    surgeCount := 0
    isRevealed := decide (type ≠ TType.hidden) }

/-- Tile.setState: the new state is always a member of TILE_STATES here, so the
membership guard of the source always passes and the state is replaced. -/
def setState (t : Tile) (s : TState) : Tile :=
  { t with state := s }

/-- Tile.setGridPosition: update the stored grid coordinates. -/
def setGridPosition (t : Tile) (gridX gridY : Nat) : Tile :=
  { t with gridX := gridX, gridY := gridY }

/-- The blocker-category test repeated throughout Tile.js:
`type === ICE || type === STONE || type === HIDDEN`. -/
def isBlockerType : TType → Bool
  | TType.ice => true
  | TType.stone => true
  | TType.hidden => true
  | _ => false

/-- Tile.convertToNormalTile: when a blocker runs out of health it is converted
in place: category becomes Normal and health becomes 1.  The source recreates
the text visuals and logs; no other game-state field is touched (in particular
surgeCount is left as it is). -/
def convertToNormalTile (t : Tile) : Tile :=
  { t with type := TType.normal, health := 1 }

/-- Tile.takeDamage: blockers (Ice, Stone, Hidden) lose one health and are
converted to a Normal tile once health reaches 0 or below; any other category
is set straight to Exploding.  The Bool is the returned destroyed flag. -/
def takeDamage (t : Tile) : Tile × Bool :=
  if isBlockerType t.type then
    let t1 : Tile := { t with health := t.health - 1 }
    if t1.health ≤ 0 then (convertToNormalTile t1, true) else (t1, false)
  else
    (setState t TState.exploding, true)

/-- Tile.applySurge, with the ripple threshold (read from the level
configuration, default 3) passed explicitly.  Blocker categories redirect the
surge into takeDamage and return; other categories increment surgeCount, then
explode if already Destabilized, or destabilize once the count reaches the
threshold while still Normal. -/
def applySurge (threshold : Nat) (t : Tile) : Tile :=
  if isBlockerType t.type then (takeDamage t).1
  else
    let t1 : Tile := { t with surgeCount := t.surgeCount + 1 }
    if t1.state = TState.destabilized then setState t1 TState.exploding
    else if t1.surgeCount ≥ threshold ∧ t1.state = TState.normal then
      setState t1 TState.destabilized
    else t1

/-- Tile.reveal: only an unrevealed Hidden tile is changed; it becomes revealed
but keeps the Hidden category. -/
def reveal (t : Tile) : Tile :=
  if t.type = TType.hidden ∧ t.isRevealed = false then { t with isRevealed := true } else t

/-- C1: a non-blocker tile (Normal, Bomb or Multiplier category) that starts in
state Normal with surgeCount 0 and threshold 3 is still Normal after the first
and second applySurge calls, becomes Destabilized exactly on the third call
(when surgeCount reaches the threshold), and Exploding on the fourth, never
skipping Destabilized. -/
theorem applySurge_third_destabilizes_fourth_explodes (t : Tile)
    (hty : t.type = TType.normal ∨ t.type = TType.bomb ∨ t.type = TType.multiplier)
    (hst : t.state = TState.normal) (hsc : t.surgeCount = 0) :
    (applySurge 3 t).state = TState.normal ∧
    (applySurge 3 (applySurge 3 t)).state = TState.normal ∧
    (applySurge 3 (applySurge 3 (applySurge 3 t))).state = TState.destabilized ∧
    (applySurge 3 (applySurge 3 (applySurge 3 (applySurge 3 t)))).state = TState.exploding := by
  obtain ⟨i, gx, gy, l, v, ty, st, h, sc, r⟩ := t
  simp only at hst hsc
  subst hst; subst hsc
  rcases hty with hty | hty | hty <;>
    simp only at hty <;> subst hty <;>
      simp [applySurge, setState, isBlockerType]

/-- Witness for C1 at a concrete Normal-category tile. -/
theorem applySurge_third_destabilizes_fourth_explodes_witness :
    (applySurge 3 (mkTile 0 0 0 'A' 1 TType.normal)).state = TState.normal ∧
    (applySurge 3 (applySurge 3 (mkTile 0 0 0 'A' 1 TType.normal))).state = TState.normal ∧
    (applySurge 3 (applySurge 3 (applySurge 3 (mkTile 0 0 0 'A' 1 TType.normal)))).state
      = TState.destabilized ∧
    (applySurge 3 (applySurge 3 (applySurge 3 (applySurge 3
      (mkTile 0 0 0 'A' 1 TType.normal))))).state = TState.exploding :=
  applySurge_third_destabilizes_fourth_explodes (mkTile 0 0 0 'A' 1 TType.normal)
    (Or.inl rfl) rfl rfl

/-- C3: a freshly created Ice tile (initial health 2) loses one health per
takeDamage call without converting, and on the second call is converted in
place to a Normal-category tile with health 1 and surgeCount 0, neither removed
nor set Exploding; a freshly created Stone tile (initial health 4) converts in
the same way exactly on the fourth call. -/
theorem takeDamage_converts_ice_second_stone_fourth
    (ii si x y x2 y2 v v2 : Nat) (l l2 : Char) :
    (let ice0 := mkTile ii x y l v TType.ice
     let ice1 := (takeDamage ice0).1
     let ice2 := (takeDamage ice1).1
     ice0.health = 2 ∧
     ice1.health = 1 ∧ ice1.type = TType.ice ∧ (takeDamage ice0).2 = false ∧
     (takeDamage ice1).2 = true ∧
     ice2.type = TType.normal ∧ ice2.health = 1 ∧ ice2.surgeCount = 0 ∧
     ice2.state ≠ TState.exploding) ∧
    (let st0 := mkTile si x2 y2 l2 v2 TType.stone
     let st1 := (takeDamage st0).1
     let st2 := (takeDamage st1).1
     let st3 := (takeDamage st2).1
     let st4 := (takeDamage st3).1
     st0.health = 4 ∧
     st1.health = 3 ∧ st1.type = TType.stone ∧ (takeDamage st0).2 = false ∧
     st2.health = 2 ∧ st2.type = TType.stone ∧ (takeDamage st1).2 = false ∧
     st3.health = 1 ∧ st3.type = TType.stone ∧ (takeDamage st2).2 = false ∧
     (takeDamage st3).2 = true ∧
     st4.type = TType.normal ∧ st4.health = 1 ∧ st4.surgeCount = 0 ∧
     st4.state ≠ TState.exploding) := by
  refine ⟨?_, ?_⟩ <;>
    simp [mkTile, takeDamage, convertToNormalTile, isBlockerType, getInitialHealth, setState]

/-- C4 counterexample: a revealed Hidden tile is still redirected into
takeDamage by applySurge.  At the concrete tile below (a Hidden tile after
reveal, so isRevealed is true), applySurge leaves surgeCount at 0 instead of
incrementing it, and decrements health from 2 to 1 instead of leaving it
unchanged; the claimed normal-path behaviour is therefore false. -/
theorem applySurge_revealed_hidden_counterexample :
    (reveal (mkTile 0 0 0 'A' 1 TType.hidden)).isRevealed = true ∧
    ¬ ((applySurge 3 (reveal (mkTile 0 0 0 'A' 1 TType.hidden))).surgeCount =
         (reveal (mkTile 0 0 0 'A' 1 TType.hidden)).surgeCount + 1 ∧
       (applySurge 3 (reveal (mkTile 0 0 0 'A' 1 TType.hidden))).health =
         (reveal (mkTile 0 0 0 'A' 1 TType.hidden)).health) := by
  decide

/-- C4 amended: applySurge redirects every Hidden-category tile into
takeDamage, whether revealed or not — the blocker test in applySurge checks
only the category, never the revealed flag.  So for any Hidden tile (revealed
included) applySurge equals the takeDamage result: surgeCount is untouched and
health is damaged. -/
theorem applySurge_hidden_always_redirects (threshold : Nat) (t : Tile)
    (h : t.type = TType.hidden) :
    applySurge threshold t = (takeDamage t).1 ∧
    (applySurge threshold t).surgeCount = t.surgeCount := by
  have hb : isBlockerType t.type = true := by rw [h]; rfl
  constructor
  · simp [applySurge, hb]
  · simp [applySurge, hb, takeDamage, convertToNormalTile]
    split <;> simp

/-- Witness for the amended C4 at a concrete revealed Hidden tile. -/
theorem applySurge_hidden_always_redirects_witness :
    applySurge 3 (reveal (mkTile 0 0 0 'A' 1 TType.hidden)) =
      (takeDamage (reveal (mkTile 0 0 0 'A' 1 TType.hidden))).1 ∧
    (applySurge 3 (reveal (mkTile 0 0 0 'A' 1 TType.hidden))).surgeCount =
      (reveal (mkTile 0 0 0 'A' 1 TType.hidden)).surgeCount :=
  applySurge_hidden_always_redirects 3 (reveal (mkTile 0 0 0 'A' 1 TType.hidden)) rfl

/-- Distance between a seed tile and one of its neighbors as computed in
EffectsQueue.processRipple: the Manhattan distance, that is
`Math.abs(neighbor.gridX - tile.gridX) + Math.abs(neighbor.gridY - tile.gridY)`. -/
def rippleDistance (tileX tileY nX nY : Int) : Int :=
  |nX - tileX| + |nY - tileY|

/-- Spread probability computed in processRipple for a neighbor:
`spreadChance * Math.pow(0.8, distance - 1)` with the Manhattan distance above.
Probabilities are modelled as exact rationals. -/
def adjustedSpreadChance (spreadChance : ℚ) (tileX tileY nX nY : Int) : ℚ :=
  spreadChance * (4/5 : ℚ) ^ (rippleDistance tileX tileY nX nY - 1)

/-- Modelled from the spec wording of claim C2, for comparison with
adjustedSpreadChance: spread probability = baseSpread × 0.8^(distance − 1)
where distance is the Chebyshev distance (max of coordinate differences)
between the neighbor and the seed tile. -/
def chebyshevSpreadChance (baseSpread : ℚ) (tileX tileY nX nY : Int) : ℚ :=
  baseSpread * (4/5 : ℚ) ^ (max |nX - tileX| |nY - tileY| - 1)

/-- C2 counterexample: for the diagonal neighbor (0,0) of a seed at (1,1) with
baseSpread 1/2, the code computes Manhattan distance 2 and probability
1/2 × 0.8 = 2/5, while the claimed Chebyshev formula gives distance 1 and
probability 1/2; the two disagree, so a diagonal 8-neighbor does not receive
probability baseSpread. -/
theorem adjustedSpreadChance_counterexample :
    adjustedSpreadChance (1/2) 1 1 0 0 = 2/5 ∧
    chebyshevSpreadChance (1/2) 1 1 0 0 = 1/2 ∧
    adjustedSpreadChance (1/2) 1 1 0 0 ≠ chebyshevSpreadChance (1/2) 1 1 0 0 := by
  norm_num [adjustedSpreadChance, chebyshevSpreadChance, rippleDistance]

/-- C2 amended: the distance in the spread probability is the Manhattan
distance |dx| + |dy| from the seed, so among the immediate 8-neighbors the 4
orthogonal ones (distance 1) receive probability baseSpread while the 4
diagonal ones (distance 2) receive baseSpread × 0.8. -/
theorem adjustedSpreadChance_eight_neighbors (spreadChance : ℚ)
    (tileX tileY nX nY : Int)
    (hdx : |nX - tileX| ≤ 1) (hdy : |nY - tileY| ≤ 1)
    (hne : ¬(nX = tileX ∧ nY = tileY)) :
    adjustedSpreadChance spreadChance tileX tileY nX nY =
      if nX ≠ tileX ∧ nY ≠ tileY then spreadChance * (4/5) else spreadChance := by
  rw [abs_le] at hdx hdy
  have hx : nX - tileX = -1 ∨ nX - tileX = 0 ∨ nX - tileX = 1 := by omega
  have hy : nY - tileY = -1 ∨ nY - tileY = 0 ∨ nY - tileY = 1 := by omega
  have hxne : nX ≠ tileX ↔ nX - tileX ≠ 0 := by omega
  have hyne : nY ≠ tileY ↔ nY - tileY ≠ 0 := by omega
  have hne2 : ¬(nX - tileX = 0 ∧ nY - tileY = 0) := by
    rintro ⟨h1, h2⟩; exact hne ⟨by omega, by omega⟩
  unfold adjustedSpreadChance rippleDistance
  simp only [hxne, hyne]
  rcases hx with h1 | h1 | h1 <;> rcases hy with h2 | h2 | h2 <;>
    first
      | (rw [h1, h2]; norm_num; done)
      | exact absurd ⟨h1, h2⟩ hne2

/-- Witness for the amended C2 at an orthogonal neighbor of the seed (1,1). -/
theorem adjustedSpreadChance_eight_neighbors_witness :
    adjustedSpreadChance (1/2) 1 1 1 0 =
      if (1 : Int) ≠ 1 ∧ (0 : Int) ≠ 1 then (1/2 : ℚ) * (4/5) else (1/2 : ℚ) :=
  adjustedSpreadChance_eight_neighbors (1/2) 1 1 1 0 (by norm_num) (by norm_num)
    (by norm_num)

/-- Depth limit from the EffectsQueue constructor (maxCascadeDepth). -/
def maxCascadeDepth : Nat := 10

/-- Duration limit in milliseconds from the constructor (maxCascadeDuration). -/
def maxCascadeDuration : Nat := 30000

/-- FPS threshold from the constructor (frameDropThreshold). -/
def frameDropThreshold : ℚ := 45

/-- Higher depth ceiling hard-coded inside canContinueCascade for mobile. -/
def mobileDepthLimit : Nat := 15

/-- Higher time ceiling hard-coded inside canContinueCascade for mobile. -/
def mobileTimeLimit : Nat := 60000

/-- Cascade-tracking fields of EffectsQueue read and written by
canContinueCascade.  A cascadeStartTime of 0 means no active cascade. -/
structure CascadeTracking where
  cascadeStartTime : Nat
  cascadeDepth : Nat
  visualEffectIntensity : ℚ
  adaptivePerformance : Bool
deriving Repr

/-- EffectsQueue.canContinueCascade with the environment reads passed as
parameters: `now` for Date.now(), `isMobile` for the user-agent test and
`actualFps` for the frame counter.  The returned pair is the Boolean result
together with the (possibly decayed) visualEffectIntensity, since the method
multiplies the intensity by 0.8 whenever the FPS check fires.  The JavaScript
literals 0.8 and 0.3 are modelled as the exact rationals 4/5 and 3/10. -/
def canContinueCascade (s : CascadeTracking) (now : Nat) (isMobile : Bool)
    (actualFps : ℚ) : Bool × ℚ :=
  if s.cascadeStartTime = 0 then (true, s.visualEffectIntensity)
  else
    let cascadeDuration := now - s.cascadeStartTime
    let effectiveDepthLimit := if isMobile then mobileDepthLimit else maxCascadeDepth
    if s.cascadeDepth ≥ effectiveDepthLimit then (false, s.visualEffectIntensity)
    else
      let effectiveTimeLimit := if isMobile then mobileTimeLimit else maxCascadeDuration
      if cascadeDuration ≥ effectiveTimeLimit then (false, s.visualEffectIntensity)
      else if isMobile = false ∧ s.adaptivePerformance = true ∧
              actualFps < frameDropThreshold then
        let newIntensity := s.visualEffectIntensity * (4/5)
        if newIntensity < 3/10 then (false, newIntensity) else (true, newIntensity)
      else (true, s.visualEffectIntensity)

/-- Unfolding of canContinueCascade when a cascade is active, with the local
variables of the source inlined. -/
lemma canContinueCascade_active (s : CascadeTracking) (now : Nat) (isMobile : Bool)
    (actualFps : ℚ) (h : s.cascadeStartTime ≠ 0) :
    canContinueCascade s now isMobile actualFps =
      if s.cascadeDepth ≥ (if isMobile then mobileDepthLimit else maxCascadeDepth) then
        (false, s.visualEffectIntensity)
      else if now - s.cascadeStartTime ≥
          (if isMobile then mobileTimeLimit else maxCascadeDuration) then
        (false, s.visualEffectIntensity)
      else if isMobile = false ∧ s.adaptivePerformance = true ∧
          actualFps < frameDropThreshold then
        (if s.visualEffectIntensity * (4/5) < 3/10 then
          (false, s.visualEffectIntensity * (4/5))
        else (true, s.visualEffectIntensity * (4/5)))
      else (true, s.visualEffectIntensity) := by
  unfold canContinueCascade
  rw [if_neg h]

/-- C7: with an active cascade (cascadeStartTime nonzero), canContinueCascade
returns false exactly when the depth has reached the effective limit (a higher
ceiling on mobile than on desktop), the elapsed time has reached the effective
duration limit, or the frame-rate check fires and the multiplicatively decayed
intensity falls below the 0.3 floor; and when only the frame-rate check fires,
the intensity is decayed by the factor 0.8 and the session continues exactly
while the decayed intensity is still at or above the floor. -/
theorem canContinueCascade_characterization (s : CascadeTracking) (now : Nat)
    (isMobile : Bool) (actualFps : ℚ) (hactive : s.cascadeStartTime ≠ 0) :
    ((canContinueCascade s now isMobile actualFps).1 = false ↔
      (s.cascadeDepth ≥ (if isMobile then mobileDepthLimit else maxCascadeDepth) ∨
       now - s.cascadeStartTime ≥
         (if isMobile then mobileTimeLimit else maxCascadeDuration) ∨
       (isMobile = false ∧ s.adaptivePerformance = true ∧
        actualFps < frameDropThreshold ∧ s.visualEffectIntensity * (4/5) < 3/10))) ∧
    mobileDepthLimit > maxCascadeDepth ∧
    (isMobile = false → s.adaptivePerformance = true →
      actualFps < frameDropThreshold →
      s.cascadeDepth < maxCascadeDepth → now - s.cascadeStartTime < maxCascadeDuration →
      (canContinueCascade s now isMobile actualFps).2 =
        s.visualEffectIntensity * (4/5) ∧
      ((canContinueCascade s now isMobile actualFps).1 = true ↔
        3/10 ≤ s.visualEffectIntensity * (4/5))) := by
  rw [canContinueCascade_active s now isMobile actualFps hactive]
  refine ⟨?_, by norm_num [mobileDepthLimit, maxCascadeDepth], ?_⟩
  · by_cases h1 : s.cascadeDepth ≥ (if isMobile then mobileDepthLimit else maxCascadeDepth)
    · rw [if_pos h1]; simp [h1]
    · rw [if_neg h1]
      by_cases h2 : now - s.cascadeStartTime ≥
          (if isMobile then mobileTimeLimit else maxCascadeDuration)
      · rw [if_pos h2]; simp [h2]
      · rw [if_neg h2]
        by_cases h3 : isMobile = false ∧ s.adaptivePerformance = true ∧
            actualFps < frameDropThreshold
        · rw [if_pos h3]
          by_cases h4 : s.visualEffectIntensity * (4/5) < 3/10
          · rw [if_pos h4]
            obtain ⟨hm, hap, hf⟩ := h3
            simp [hm, hap, hf, h4]
          · rw [if_neg h4]
            constructor
            · intro h; exact absurd h (by simp)
            · rintro (hA | hB | ⟨-, -, -, hC⟩)
              · exact absurd hA h1
              · exact absurd hB h2
              · exact absurd hC h4
        · rw [if_neg h3]
          constructor
          · intro h; exact absurd h (by simp)
          · rintro (hA | hB | ⟨hm, hap, hf, -⟩)
            · exact absurd hA h1
            · exact absurd hB h2
            · exact absurd ⟨hm, hap, hf⟩ h3
  · intro hm ha hf hd ht
    subst hm
    rw [if_neg (by simp only [if_neg Bool.false_ne_true]; omega),
      if_neg (by simp only [if_neg Bool.false_ne_true]; omega),
      if_pos ⟨rfl, ha, hf⟩]
    split_ifs with h5
    · refine ⟨rfl, ?_⟩
      constructor
      · intro h; exact absurd h (by simp)
      · intro h; linarith
    · refine ⟨rfl, ?_⟩
      constructor
      · intro _; linarith [not_lt.mp h5]
      · intro _; rfl

/-- Witness for C7 on a concrete active desktop session that has just had a
frame-rate dip with intensity still above the floor. -/
theorem canContinueCascade_characterization_witness :
    (((canContinueCascade ⟨100, 2, 1, true⟩ 200 false 30).1 = false ↔
      ((2 : Nat) ≥ (if false then mobileDepthLimit else maxCascadeDepth) ∨
       200 - 100 ≥ (if false then mobileTimeLimit else maxCascadeDuration) ∨
       (false = false ∧ true = true ∧ (30 : ℚ) < frameDropThreshold ∧
        (1 : ℚ) * (4/5) < 3/10))) ∧
    mobileDepthLimit > maxCascadeDepth ∧
    (false = false → true = true → (30 : ℚ) < frameDropThreshold →
      (2 : Nat) < maxCascadeDepth → 200 - 100 < maxCascadeDuration →
      (canContinueCascade ⟨100, 2, 1, true⟩ 200 false 30).2 = (1 : ℚ) * (4/5) ∧
      ((canContinueCascade ⟨100, 2, 1, true⟩ 200 false 30).1 = true ↔
        (3/10 : ℚ) ≤ (1 : ℚ) * (4/5)))) :=
  canContinueCascade_characterization ⟨100, 2, 1, true⟩ 200 false 30 (by norm_num)

/-- Effect kinds dispatched by EffectsQueue.processEffect. -/
inductive EffectKind where
  | explosion
  | ripple
  | cascade
  | gravity
  | spawn
deriving DecidableEq, Repr

/-- An enqueued effect descriptor.  The kind drives dispatch; the payload
number stands for the targets/params/callback data, which the scheduler itself
never inspects. -/
structure Effect where
  kind : EffectKind
  payload : Nat
deriving DecidableEq, Repr

/-- Scheduler-visible state of EffectsQueue (src/systems/EffectsQueue.js).
The field `inFlight` counts processNext invocations that have dequeued an
effect and are inside their try/catch awaiting it (occupied currentEffect
slots); `pendingNext` counts delayedCall(16, processNext) timers that are
scheduled but have not fired yet.  In the JavaScript object currentEffect is a
single nullable field; modelling occupancy as a count lets the single-consumer
guarantee be proved rather than assumed. -/
structure QueueState where
  queue : List Effect
  isProcessing : Bool
  inFlight : Nat
  pendingNext : Nat
deriving DecidableEq, Repr

/-- Queue state built by the EffectsQueue constructor: empty queue, not
processing, no effect in flight and no scheduled processNext. -/
def initQueueState : QueueState :=
  { queue := [], isProcessing := false, inFlight := 0, pendingNext := 0 }

/-- EffectsQueue.addEffect: push the effect onto the queue; when not already
processing, call processNext synchronously, which (queue now being non-empty)
sets isProcessing, dequeues the head and suspends at the await inside its
try block — modelled by incrementing inFlight. -/
def addEffect (e : Effect) (s : QueueState) : QueueState :=
  let s1 : QueueState := { s with queue := s.queue ++ [e] }
  if s.isProcessing then s1
  else
    match s1.queue with
    | [] => { s1 with isProcessing := false }
    | _ :: rest =>
        { queue := rest, isProcessing := true,
          inFlight := s1.inFlight + 1, pendingNext := s1.pendingNext }

/-- A scheduled processNext timer fires: on an empty queue isProcessing is
cleared (and queue-empty reported); otherwise the head is dequeued,
isProcessing set, and the invocation suspends awaiting the effect. -/
def dispatchNext (s : QueueState) : QueueState :=
  match s.queue with
  | [] => { s with isProcessing := false, pendingNext := s.pendingNext - 1 }
  | _ :: rest =>
      { queue := rest, isProcessing := true,
        inFlight := s.inFlight + 1, pendingNext := s.pendingNext - 1 }

/-- The in-flight effect resolves: its try/catch ends (with a completion or a
caught error), currentEffect is cleared, and one delayedCall(16, processNext)
is scheduled. -/
def finishCurrent (s : QueueState) : QueueState :=
  { s with inFlight := s.inFlight - 1, pendingNext := s.pendingNext + 1 }

/-- Interleaving semantics of the scheduler: at any suspension point a new
effect may be added, the in-flight effect may resolve, or a scheduled
processNext timer may fire. -/
inductive QStep : QueueState → QueueState → Prop where
  | add (e : Effect) (s : QueueState) : QStep s (addEffect e s)
  | finish (s : QueueState) (h : 1 ≤ s.inFlight) : QStep s (finishCurrent s)
  | run (s : QueueState) (h : 1 ≤ s.pendingNext) : QStep s (dispatchNext s)

/-- States reachable from the constructor state by any interleaving. -/
inductive QReachable : QueueState → Prop where
  | init : QReachable initQueueState
  | step {s s2 : QueueState} : QReachable s → QStep s s2 → QReachable s2

/-- Inductive invariant of the queue: at most one consumer token (in-flight
effect or scheduled processNext) exists, and while not processing there is
neither an in-flight effect nor a scheduled timer. -/
def QueueInv (s : QueueState) : Prop :=
  s.inFlight + s.pendingNext ≤ 1 ∧
  (s.isProcessing = false → s.inFlight = 0 ∧ s.pendingNext = 0)

lemma queueInv_init : QueueInv initQueueState := by
  constructor <;> simp [initQueueState]

lemma queueInv_step {s s2 : QueueState} (hinv : QueueInv s) (hstep : QStep s s2) :
    QueueInv s2 := by
  obtain ⟨hcount, hidle⟩ := hinv
  cases hstep with
  | add e s =>
      by_cases hp : s.isProcessing
      · constructor
        · simpa [addEffect, hp] using hcount
        · intro hfalse
          rw [show addEffect e s = { s with queue := s.queue ++ [e] } by
            simp [addEffect, hp]] at hfalse
          simp only at hfalse
          simpa [addEffect, hp] using hidle hfalse
      · obtain ⟨hf, hpn⟩ := hidle (by simpa using hp)
        rcases hq : s.queue with _ | ⟨f, rest⟩ <;>
          constructor <;> simp [addEffect, hp, hq, hf, hpn]
  | finish s h =>
      have h1 : s.inFlight = 1 := by omega
      have h2 : s.pendingNext = 0 := by omega
      constructor
      · simp [finishCurrent, h1, h2]
      · intro hfalse
        simp only [finishCurrent] at hfalse
        exact absurd (hidle hfalse).1 (by omega)
  | run s h =>
      have h1 : s.pendingNext = 1 := by omega
      have h2 : s.inFlight = 0 := by omega
      have hp : s.isProcessing = true := by
        by_contra hc
        exact absurd (hidle (by simpa using hc)).2 (by omega)
      rcases hq : s.queue with _ | ⟨f, rest⟩ <;>
        constructor <;> simp [dispatchNext, hq, h1, h2]

lemma queueInv_of_reachable {s : QueueState} (h : QReachable s) : QueueInv s := by
  induction h with
  | init => exact queueInv_init
  | step _ hstep ih => exact queueInv_step ih hstep

/-- C5: in every state reachable by any interleaving of additions, effect
completions and timer firings, at most one effect is in flight; and adding an
effect while the queue is processing only appends it to the pending queue — it
does not start it. -/
theorem effectsQueue_single_in_flight (s : QueueState) (h : QReachable s) :
    s.inFlight ≤ 1 ∧
    (s.isProcessing = true →
      ∀ e, addEffect e s = { s with queue := s.queue ++ [e] }) := by
  obtain ⟨hcount, _⟩ := queueInv_of_reachable h
  refine ⟨by omega, ?_⟩
  intro hp e
  simp [addEffect, hp]

/-- Witness for C5 at the constructor state. -/
theorem effectsQueue_single_in_flight_witness :
    initQueueState.inFlight ≤ 1 ∧
    (initQueueState.isProcessing = true →
      ∀ e, addEffect e initQueueState =
        { initQueueState with queue := initQueueState.queue ++ [e] }) :=
  effectsQueue_single_in_flight initQueueState QReachable.init

/-- Outcome of the body of the try block of processNext for one effect: either
the awaited processEffect (and the optional callback) succeeds, or an
exception with the given code is thrown and lands in the catch. -/
inductive EffectOutcome where
  | ok
  | err (code : Nat)
deriving DecidableEq, Repr

/-- Notifications emitted by processNext on the queue event emitter. -/
inductive QueueEvent where
  | effectStart (e : Effect)
  | effectComplete (e : Effect)
  | effectError (e : Effect) (code : Nat)
  | queueEmpty
deriving DecidableEq, Repr

/-- Events of one processNext pass over the dequeued effect: effect-start is
emitted inside the try block, then either effect-complete on success or
effect-error (carrying the effect and the caught error) from the catch. -/
def processOneEvents (outcome : Effect → EffectOutcome) (e : Effect) :
    List QueueEvent :=
  match outcome e with
  | EffectOutcome.ok => [QueueEvent.effectStart e, QueueEvent.effectComplete e]
  | EffectOutcome.err c => [QueueEvent.effectStart e, QueueEvent.effectError e c]

/-- The processNext loop run to completion over the queue contents: each pass
dequeues the head, runs the guarded try/catch, and unconditionally schedules
the next pass (the delayedCall after the catch); the pass on the empty queue
clears isProcessing and emits queue-empty. -/
def runQueue (outcome : Effect → EffectOutcome) : List Effect → List QueueEvent
  | [] => [QueueEvent.queueEmpty]
  | e :: rest => processOneEvents outcome e ++ runQueue outcome rest

lemma runQueue_ne_nil (outcome : Effect → EffectOutcome) (q : List Effect) :
    runQueue outcome q ≠ [] := by
  cases q with
  | nil => simp [runQueue]
  | cons e rest =>
      simp only [runQueue, processOneEvents]
      cases outcome e <;> simp

lemma effectStart_mem_processOneEvents (outcome : Effect → EffectOutcome)
    (e : Effect) : QueueEvent.effectStart e ∈ processOneEvents outcome e := by
  unfold processOneEvents
  cases outcome e <;> simp

lemma runQueue_starts_all (outcome : Effect → EffectOutcome) :
    ∀ (q : List Effect), ∀ f ∈ q, QueueEvent.effectStart f ∈ runQueue outcome q := by
  intro q
  induction q with
  | nil => intro f hf; cases hf
  | cons g rest ih =>
      intro f hf
      rcases List.mem_cons.mp hf with hg | hrest
      · subst hg
        exact List.mem_append_left _ (effectStart_mem_processOneEvents outcome f)
      · exact List.mem_append_right _ (ih f hrest)

lemma runQueue_getLast (outcome : Effect → EffectOutcome) (q : List Effect) :
    (runQueue outcome q).getLast? = some QueueEvent.queueEmpty := by
  induction q with
  | nil => simp [runQueue]
  | cons g rest ih =>
      rw [runQueue, List.getLast?_append, ih]
      rfl

/-- C6: a failing effect never stalls the queue.  If some effect in the queue
throws, the catch block emits effect-error carrying that effect and the error;
every queued effect (including every one behind the failing effect) still gets
dequeued and started; and the run still ends with the queue-empty
notification. -/
theorem effectsQueue_error_isolation (outcome : Effect → EffectOutcome)
    (q : List Effect) (e : Effect) (c : Nat)
    (he : e ∈ q) (hfail : outcome e = EffectOutcome.err c) :
    QueueEvent.effectError e c ∈ runQueue outcome q ∧
    (∀ f ∈ q, QueueEvent.effectStart f ∈ runQueue outcome q) ∧
    (runQueue outcome q).getLast? = some QueueEvent.queueEmpty := by
  refine ⟨?_, ?_, ?_⟩
  · induction q with
    | nil => cases he
    | cons g rest ih =>
        rcases List.mem_cons.mp he with hg | hrest
        · subst hg
          simp [runQueue, processOneEvents, hfail]
        · exact List.mem_append_right _ (ih hrest)
  · exact runQueue_starts_all outcome q
  · exact runQueue_getLast outcome q

/-- Witness for C6: a two-effect queue whose first effect throws error 7. -/
theorem effectsQueue_error_isolation_witness :
    QueueEvent.effectError ⟨EffectKind.explosion, 1⟩ 7 ∈
      runQueue (fun e => if e.payload = 1 then EffectOutcome.err 7 else EffectOutcome.ok)
        [⟨EffectKind.explosion, 1⟩, ⟨EffectKind.gravity, 2⟩] ∧
    (∀ f ∈ [(⟨EffectKind.explosion, 1⟩ : Effect), ⟨EffectKind.gravity, 2⟩],
      QueueEvent.effectStart f ∈
        runQueue (fun e => if e.payload = 1 then EffectOutcome.err 7 else EffectOutcome.ok)
          [⟨EffectKind.explosion, 1⟩, ⟨EffectKind.gravity, 2⟩]) ∧
    (runQueue (fun e => if e.payload = 1 then EffectOutcome.err 7 else EffectOutcome.ok)
        [⟨EffectKind.explosion, 1⟩, ⟨EffectKind.gravity, 2⟩]).getLast? =
      some QueueEvent.queueEmpty :=
  effectsQueue_error_isolation _ _ ⟨EffectKind.explosion, 1⟩ 7 (by simp) rfl

/-- JavaScript values appearing in the endTrace submission guard of
src/systems/InputSystem.js. -/
inductive JSVal where
  | bool (b : Bool)
  | num (n : Nat)
deriving DecidableEq, Repr

/-- JavaScript truthiness for those values: false and 0 are falsy. -/
def jsTruthy : JSVal → Bool
  | JSVal.bool b => b
  | JSVal.num n => decide (n ≠ 0)

/-- The comparison `selectedTiles.length >= this.inputSettings.minWordLength`:
when minWordLength is absent (undefined) the JavaScript comparison yields
false. -/
def jsGeqLen (len : Nat) (minWordLength : Option Nat) : JSVal :=
  JSVal.bool (match minWordLength with
    | some k => decide (len ≥ k)
    | none => false)

/-- JavaScript `a || b`: the first operand if truthy, the second otherwise. -/
def jsOr (a b : JSVal) : JSVal :=
  if jsTruthy a then a else b

/-- Tracing-relevant state of InputSystem. -/
structure InputState where
  isTracing : Bool
  selectedTiles : List Tile
  minWordLength : Option Nat
deriving DecidableEq, Repr

/-- Events emitted by InputSystem.endTrace. -/
inductive InputEvent where
  | wordSubmitted (tiles : List Tile)
  | traceEnded
deriving DecidableEq, Repr

/-- InputSystem.endTrace: a no-op while not tracing; otherwise tracing stops,
the word is submitted when the guard
`selectedTiles.length >= this.inputSettings.minWordLength || 2` is truthy
(the literal 2 is the right operand of ||, not part of the comparison), and
the selection is reset and traceEnded emitted. -/
def endTrace (s : InputState) : InputState × List InputEvent :=
  if s.isTracing = false then (s, [])
  else
    let guardVal := jsOr (jsGeqLen s.selectedTiles.length s.minWordLength) (JSVal.num 2)
    let events :=
      (if jsTruthy guardVal = true then [InputEvent.wordSubmitted s.selectedTiles] else [])
        ++ [InputEvent.traceEnded]
    ({ s with isTracing := false, selectedTiles := [] }, events)

/-- C10: the endTrace submission guard is truthy for every selection length
and every configured minimum (the || 2 operand rescues the comparison), so
ending any active trace — in particular one with at least one selected tile —
always emits wordSubmitted with the traced tiles. -/
theorem endTrace_always_submits (s : InputState)
    (htracing : s.isTracing = true) (hlen : 1 ≤ s.selectedTiles.length) :
    InputEvent.wordSubmitted s.selectedTiles ∈ (endTrace s).2 ∧
    (∀ (len : Nat) (m : Option Nat),
      jsTruthy (jsOr (jsGeqLen len m) (JSVal.num 2)) = true) := by
  have hguard : ∀ (len : Nat) (m : Option Nat),
      jsTruthy (jsOr (jsGeqLen len m) (JSVal.num 2)) = true := by
    intro len m
    unfold jsOr jsGeqLen jsTruthy
    cases m with
    | none => simp
    | some k => by_cases hk : len ≥ k <;> simp [hk]
  refine ⟨?_, hguard⟩
  unfold endTrace
  rw [if_neg (by simp [htracing])]
  simp [hguard]

/-- Witness for C10 at a one-tile trace with configured minimum 3. -/
theorem endTrace_always_submits_witness :
    InputEvent.wordSubmitted [mkTile 0 0 0 'A' 1 TType.normal] ∈
      (endTrace ⟨true, [mkTile 0 0 0 'A' 1 TType.normal], some 3⟩).2 ∧
    (∀ (len : Nat) (m : Option Nat),
      jsTruthy (jsOr (jsGeqLen len m) (JSVal.num 2)) = true) :=
  endTrace_always_submits ⟨true, [mkTile 0 0 0 'A' 1 TType.normal], some 3⟩ rfl
    (by simp)

/-- Movement record produced by Grid.applyGravity for one moved tile; the
tile field aliases the moved tile object, whose grid position has already
been updated to the destination row. -/
structure Movement where
  tile : Tile
  fromY : Nat
  toY : Nat
deriving DecidableEq, Repr

/-- The y-loop of Grid.applyGravity for the column at index x.  The grid
array `this.tiles[y][x]` is modelled column-major (a column is a list of
`Option Tile` slots indexed by row, row 0 at the top) because applyGravity
and refillGrid traverse it strictly column by column.  A call
`gravityColAux x n col wi moves` runs the loop iterations for rows
n−1, n−2, …, 0 with current column contents `col`, write index `wi` and
movement accumulator `moves`: a slot holding a tile that is not Exploding is
kept — if its row differs from the write index the tile is stored at the
write index, its old slot cleared, its grid position updated, and a movement
record appended — and the write index then moves up one row. -/
def gravityColAux (x : Nat) : Nat → List (Option Tile) → Nat → List Movement →
    List (Option Tile) × List Movement
  | 0, col, _, moves => (col, moves)
  | n+1, col, wi, moves =>
    match col.getD n none with
    | some t =>
      if t.state ≠ TState.exploding then
        if n ≠ wi then
          gravityColAux x n ((col.set wi (some (setGridPosition t x wi))).set n none)
            (wi - 1) (moves ++ [⟨setGridPosition t x wi, n, wi⟩])
        else gravityColAux x n col (wi - 1) moves
      else gravityColAux x n col wi moves
    | none => gravityColAux x n col wi moves

/-- Grid.applyGravity restricted to one column: scan from the bottom row
(height − 1) upward, with the write index starting at the bottom row. -/
def applyGravityCol (x : Nat) (col : List (Option Tile)) :
    List (Option Tile) × List Movement :=
  gravityColAux x col.length col (col.length - 1) []

/-- Grid.applyGravity: every column is processed independently (x ascending)
and the movement records of all columns are concatenated in column order. -/
def applyGravity (g : List (List (Option Tile))) :
    List (List (Option Tile)) × List Movement :=
  (g.enum.map fun p => (applyGravityCol p.1 p.2).1,
   (g.enum.map fun p => (applyGravityCol p.1 p.2).2).flatten)

/-- Surviving (non-Exploding) tiles among rows 0…n−1 of a column, paired with
their row and listed in the bottom-to-top order in which the gravity scan
meets them. -/
def keptRev (col : List (Option Tile)) : Nat → List (Nat × Tile)
  | 0 => []
  | n+1 =>
      (match col.getD n none with
       | some t => if t.state = TState.exploding then [] else [(n, t)]
       | none => []) ++ keptRev col n

/-- Surviving (non-Exploding) tiles of a column listed top to bottom with
their rows, the first row being `y`.  This is the reverse of keptRev and the
order in which the column reads from top to bottom. -/
def keptWithRow : Nat → List (Option Tile) → List (Nat × Tile)
  | _, [] => []
  | y, none :: rest => keptWithRow (y+1) rest
  | y, some t :: rest =>
      (if t.state = TState.exploding then [] else [(y, t)]) ++ keptWithRow (y+1) rest

/-- Replay of the write operations of the gravity scan: the kept tiles are
given bottom-to-top and placed at descending write indices, moved tiles being
restamped with their destination coordinates and their source slots cleared. -/
def placeRev (x : Nat) : List (Nat × Tile) → Nat → List (Option Tile) →
    List (Option Tile)
  | [], _, col => col
  | (y, t) :: rest, wi, col =>
      placeRev x rest (wi - 1)
        (if y = wi then col
         else (col.set wi (some (setGridPosition t x wi))).set y none)

/-- Replay of the movement records of the gravity scan, in push order. -/
def movesRev (x : Nat) : List (Nat × Tile) → Nat → List Movement
  | [], _ => []
  | (y, t) :: rest, wi =>
      (if y = wi then [] else [⟨setGridPosition t x wi, y, wi⟩])
        ++ movesRev x rest (wi - 1)

lemma keptRev_of_set_ge (col : List (Option Tile)) (j : Nat) (v : Option Tile) :
    ∀ n : Nat, n ≤ j → keptRev (col.set j v) n = keptRev col n := by
  intro n
  induction n with
  | zero => intro _; rfl
  | succ n ih =>
      intro h
      have hne : j ≠ n := by omega
      unfold keptRev
      rw [List.getD_eq_getElem?_getD, List.getElem?_set_ne hne,
        ← List.getD_eq_getElem?_getD, ih (by omega)]

/-- The imperative gravity scan coincides with the replay of its writes over
the list of surviving tiles it is going to meet. -/
lemma gravityColAux_eq (x : Nat) :
    ∀ (n : Nat) (col : List (Option Tile)) (wi : Nat) (moves : List Movement),
      n ≤ wi + 1 →
      gravityColAux x n col wi moves =
        (placeRev x (keptRev col n) wi col,
         moves ++ movesRev x (keptRev col n) wi) := by
  intro n
  induction n with
  | zero =>
      intro col wi moves _
      simp [gravityColAux, keptRev, placeRev, movesRev]
  | succ n ih =>
      intro col wi moves h
      have hn : n ≤ wi := by omega
      unfold gravityColAux keptRev
      rcases hslot : col.getD n none with _ | t
      · simpa using ih col wi moves (by omega)
      · dsimp only
        by_cases hexp : t.state = TState.exploding
        · rw [if_neg (not_not_intro hexp), if_pos hexp]
          simpa using ih col wi moves (by omega)
        · by_cases hwi : n = wi
          · subst hwi
            rw [if_pos hexp, if_neg (by omega : ¬ n ≠ n), if_neg hexp]
            rw [ih col (n - 1) moves (by omega)]
            simp [placeRev, movesRev]
          · rw [if_pos hexp, if_pos hwi, if_neg hexp]
            have hrw : keptRev ((col.set wi (some (setGridPosition t x wi))).set n none) n
                = keptRev col n := by
              rw [keptRev_of_set_ge _ n none n (by omega),
                keptRev_of_set_ge _ wi _ n (by omega)]
            refine (ih ((col.set wi (some (setGridPosition t x wi))).set n none)
              (wi - 1) (moves ++ [⟨setGridPosition t x wi, n, wi⟩]) (by omega)).trans ?_
            rw [hrw]
            simp [placeRev, movesRev, hwi, List.append_assoc]

lemma getD_set_ne2 (l : List (Option Tile)) (i j : Nat) (v : Option Tile)
    (h : i ≠ j) : (l.set i v).getD j none = l.getD j none := by
  rw [List.getD_eq_getElem?_getD, List.getElem?_set_ne h, ← List.getD_eq_getElem?_getD]

lemma getD_set_self2 (l : List (Option Tile)) (i : Nat) (v : Option Tile)
    (h : i < l.length) : (l.set i v).getD i none = v := by
  rw [List.getD_eq_getElem?_getD, List.getElem?_set_self h]
  rfl

lemma getD_of_le_length (l : List (Option Tile)) (i : Nat) (h : l.length ≤ i) :
    l.getD i none = none := by
  rw [List.getD_eq_getElem?_getD, List.getElem?_eq_none h]
  rfl

lemma keptRev_spec (col : List (Option Tile)) :
    ∀ n, ∀ p ∈ keptRev col n,
      p.1 < n ∧ col.getD p.1 none = some p.2 ∧ p.2.state ≠ TState.exploding := by
  intro n
  induction n with
  | zero => intro p hp; simp [keptRev] at hp
  | succ n ih =>
      intro p hp
      unfold keptRev at hp
      rcases hslot : col.getD n none with _ | t <;> rw [hslot] at hp <;>
        dsimp only at hp
      · obtain ⟨h1, h2, h3⟩ := ih p hp
        exact ⟨by omega, h2, h3⟩
      · by_cases hexp : t.state = TState.exploding
        · rw [if_pos hexp] at hp
          obtain ⟨h1, h2, h3⟩ := ih p (by simpa using hp)
          exact ⟨by omega, h2, h3⟩
        · rw [if_neg hexp] at hp
          rcases List.mem_append.mp hp with h1 | h2
          · obtain rfl : p = (n, t) := by simpa using h1
            exact ⟨by omega, hslot, hexp⟩
          · obtain ⟨h1, h2, h3⟩ := ih p h2
            exact ⟨by omega, h2, h3⟩

lemma keptRev_pairwise (col : List (Option Tile)) :
    ∀ n, List.Pairwise (fun a b => b.1 < a.1) (keptRev col n) := by
  intro n
  induction n with
  | zero => simp [keptRev]
  | succ n ih =>
      unfold keptRev
      rcases hslot : col.getD n none with _ | t <;> dsimp only
      · simpa using ih
      · by_cases hexp : t.state = TState.exploding
        · rw [if_pos hexp]; simpa using ih
        · rw [if_neg hexp]
          refine List.pairwise_cons.mpr ⟨?_, ih⟩
          intro p hp
          exact (keptRev_spec col n p hp).1

lemma keptRev_length_le (col : List (Option Tile)) :
    ∀ n, (keptRev col n).length ≤ n := by
  intro n
  induction n with
  | zero => simp [keptRev]
  | succ n ih =>
      unfold keptRev
      rcases col.getD n none with _ | t <;> dsimp only
      · simp only [List.nil_append]
        omega
      · by_cases hexp : t.state = TState.exploding
        · rw [if_pos hexp]; simpa using Nat.le_succ_of_le ih
        · rw [if_neg hexp]; simpa using ih

/-- Write-index discipline of the gravity scan: each successive kept tile sits
at or above the write index available for it. -/
def rowsFit : List (Nat × Tile) → Nat → Prop
  | [], _ => True
  | (y, _) :: rest, wi => y ≤ wi ∧ rowsFit rest (wi - 1)

lemma keptRev_rowsFit (col : List (Option Tile)) :
    ∀ n wi, n ≤ wi + 1 → rowsFit (keptRev col n) wi := by
  intro n
  induction n with
  | zero => intro wi _; simp [keptRev, rowsFit]
  | succ n ih =>
      intro wi h
      unfold keptRev
      rcases col.getD n none with _ | t <;> dsimp only
      · exact ih wi (by omega)
      · by_cases hexp : t.state = TState.exploding
        · rw [if_pos hexp]
          simpa using ih wi (by omega)
        · rw [if_neg hexp]
          exact ⟨by omega, ih (wi - 1) (by omega)⟩

lemma placeRev_length (x : Nat) :
    ∀ (r : List (Nat × Tile)) (wi : Nat) (col : List (Option Tile)),
      (placeRev x r wi col).length = col.length := by
  intro r
  induction r with
  | nil => intro wi col; rfl
  | cons p rest ih =>
      intro wi col
      obtain ⟨y, t⟩ := p
      unfold placeRev
      rw [ih]
      split <;> simp

lemma placeRev_getD_gt (x : Nat) :
    ∀ (r : List (Nat × Tile)) (wi : Nat) (col : List (Option Tile)) (q : Nat),
      rowsFit r wi → wi < q →
      (placeRev x r wi col).getD q none = col.getD q none := by
  intro r
  induction r with
  | nil => intro wi col q _ _; rfl
  | cons p rest ih =>
      intro wi col q hfit hq
      obtain ⟨y, t⟩ := p
      obtain ⟨hy, hrest⟩ := hfit
      unfold placeRev
      rw [ih (wi - 1) _ q hrest (by omega)]
      split
      · rfl
      · rw [getD_set_ne2 _ _ _ _ (by omega), getD_set_ne2 _ _ _ _ (by omega)]

lemma placeRev_getD_place (x : Nat) :
    ∀ (r : List (Nat × Tile)) (wi : Nat) (col : List (Option Tile)),
      wi < col.length →
      rowsFit r wi →
      List.Pairwise (fun a b => b.1 < a.1) r →
      (∀ p ∈ r, col.getD p.1 none = some p.2) →
      ∀ (j : Nat) (hj : j < r.length),
        (placeRev x r wi col).getD (wi - j) none =
          some (if (r.get ⟨j, hj⟩).1 = wi - j then (r.get ⟨j, hj⟩).2
                else setGridPosition (r.get ⟨j, hj⟩).2 x (wi - j)) := by
  intro r
  induction r with
  | nil => intro wi col _ _ _ _ j hj; simp at hj
  | cons p rest ih =>
      intro wi col hlen hfit hpw hmem j hj
      obtain ⟨y, t⟩ := p
      obtain ⟨hy, hfr⟩ := hfit
      rw [List.pairwise_cons] at hpw
      obtain ⟨hlt, hpw2⟩ := hpw
      by_cases hywi : y = wi
      · -- the head tile already sits at the write index: no write happens
        unfold placeRev
        rw [if_pos hywi]
        match j with
        | 0 =>
            have huntouched : (placeRev x rest (wi - 1) col).getD wi none
                = col.getD wi none := by
              cases rest with
              | nil => rfl
              | cons q rest2 =>
                  have hq1 : q.1 < y := by simpa using hlt q (by simp)
                  exact placeRev_getD_gt x _ (wi - 1) col wi hfr (by omega)
            rw [Nat.sub_zero, huntouched]
            have hhead : col.getD y none = some t := hmem (y, t) (by simp)
            rw [hywi] at hhead
            rw [hhead]
            simp [List.get_eq_getElem, hywi]
        | j2+1 =>
            have hsub : wi - (j2+1) = (wi - 1) - j2 := by omega
            rw [hsub]
            have hmem2 : ∀ q ∈ rest, col.getD q.1 none = some q.2 := by
              intro q hq
              exact hmem q (by simp [hq])
            have := ih (wi - 1) col (by omega) hfr hpw2 hmem2 j2
              (by simpa using Nat.lt_of_succ_lt_succ hj)
            rw [this]
            congr 1
      · -- the head tile moves: it is written at the write index, its slot cleared
        unfold placeRev
        rw [if_neg hywi]
        have hylt : y < wi := by omega
        have hlen2 : wi - 1 < ((col.set wi (some (setGridPosition t x wi))).set y none).length := by
          simp only [List.length_set]
          omega
        match j with
        | 0 =>
            have huntouched :
                (placeRev x rest (wi - 1)
                  ((col.set wi (some (setGridPosition t x wi))).set y none)).getD wi none
                = ((col.set wi (some (setGridPosition t x wi))).set y none).getD wi none := by
              cases rest with
              | nil => rfl
              | cons q rest2 =>
                  have hq1 : q.1 < y := by simpa using hlt q (by simp)
                  exact placeRev_getD_gt x _ (wi - 1) _ wi hfr (by omega)
            rw [Nat.sub_zero, huntouched, getD_set_ne2 _ _ _ _ (by omega),
              getD_set_self2 _ _ _ hlen]
            simp [List.get_eq_getElem, hywi]
        | j2+1 =>
            have hsub : wi - (j2+1) = (wi - 1) - j2 := by omega
            rw [hsub]
            have hmem2 : ∀ q ∈ rest,
                ((col.set wi (some (setGridPosition t x wi))).set y none).getD q.1 none
                  = some q.2 := by
              intro q hq
              have hq1 : q.1 < y := by simpa using hlt q hq
              rw [getD_set_ne2 _ _ _ _ (by omega), getD_set_ne2 _ _ _ _ (by omega)]
              exact hmem q (by simp [hq])
            have := ih (wi - 1) _ hlen2 hfr hpw2 hmem2 j2
              (by simpa using Nat.lt_of_succ_lt_succ hj)
            rw [this]
            congr 1

lemma movesRev_mem_of (x : Nat) :
    ∀ (r : List (Nat × Tile)) (wi : Nat) (j : Nat) (hj : j < r.length),
      (r.get ⟨j, hj⟩).1 ≠ wi - j →
      (⟨setGridPosition (r.get ⟨j, hj⟩).2 x (wi - j), (r.get ⟨j, hj⟩).1, wi - j⟩ : Movement)
        ∈ movesRev x r wi := by
  intro r
  induction r with
  | nil => intro wi j hj; simp at hj
  | cons p rest ih =>
      intro wi j hj hne
      obtain ⟨y, t⟩ := p
      unfold movesRev
      match j with
      | 0 =>
          simp only [List.get_eq_getElem, List.getElem_cons_zero, Nat.sub_zero] at hne ⊢
          rw [if_neg hne]
          simp
      | j2+1 =>
          have hsub : wi - (j2+1) = (wi - 1) - j2 := by omega
          refine List.mem_append_right _ ?_
          have hj2 : j2 < rest.length := by simpa using Nat.lt_of_succ_lt_succ hj
          have := ih (wi - 1) j2 hj2
            (by
              rw [← hsub]
              simpa only [List.get_eq_getElem, List.getElem_cons_succ] using hne)
          simpa only [List.get_eq_getElem, List.getElem_cons_succ, hsub] using this

lemma movesRev_mem_elim (x : Nat) :
    ∀ (r : List (Nat × Tile)) (wi : Nat) (m : Movement),
      m ∈ movesRev x r wi →
      ∃ (j : Nat) (hj : j < r.length),
        (r.get ⟨j, hj⟩).1 ≠ wi - j ∧
        m = ⟨setGridPosition (r.get ⟨j, hj⟩).2 x (wi - j), (r.get ⟨j, hj⟩).1, wi - j⟩ := by
  intro r
  induction r with
  | nil => intro wi m hm; simp [movesRev] at hm
  | cons p rest ih =>
      intro wi m hm
      obtain ⟨y, t⟩ := p
      unfold movesRev at hm
      rcases List.mem_append.mp hm with hhead | htail
      · by_cases hywi : y = wi
        · rw [if_pos hywi] at hhead
          cases hhead
        · rw [if_neg hywi] at hhead
          obtain rfl : m = ⟨setGridPosition t x wi, y, wi⟩ := by simpa using hhead
          exact ⟨0, by simp, by simpa using hywi, by simp⟩
      · obtain ⟨j, hj, hne, hm2⟩ := ih (wi - 1) m htail
        refine ⟨j+1, by simpa using Nat.succ_lt_succ hj, ?_, ?_⟩
        · rw [List.get_eq_getElem, List.getElem_cons_succ]
          rw [List.get_eq_getElem] at hne
          have hsub : wi - (j+1) = (wi - 1) - j := by omega
          rw [hsub]
          exact hne
        · rw [hm2]
          have hsub : wi - (j+1) = (wi - 1) - j := by omega
          simp only [List.get_eq_getElem, List.getElem_cons_succ, hsub]

lemma keptWithRow_append :
    ∀ (l1 l2 : List (Option Tile)) (y : Nat),
      keptWithRow y (l1 ++ l2) = keptWithRow y l1 ++ keptWithRow (y + l1.length) l2 := by
  intro l1
  induction l1 with
  | nil => intro l2 y; simp [keptWithRow]
  | cons o rest ih =>
      intro l2 y
      cases o with
      | none =>
          simp only [List.cons_append, keptWithRow, List.append_eq]
          rw [ih l2 (y+1)]
          have hidx : y + 1 + rest.length = y + (rest.length + 1) := by omega
          simp [hidx]
      | some t =>
          simp only [List.cons_append, keptWithRow, List.append_eq]
          rw [ih l2 (y+1), List.append_assoc]
          have hidx : y + 1 + rest.length = y + (rest.length + 1) := by omega
          simp [hidx]

lemma keptRev_append (col ext : List (Option Tile)) :
    ∀ n, n ≤ col.length → keptRev (col ++ ext) n = keptRev col n := by
  intro n
  induction n with
  | zero => intro _; rfl
  | succ n ih =>
      intro h
      unfold keptRev
      have hidx : (col ++ ext).getD n none = col.getD n none := by
        rw [List.getD_eq_getElem?_getD, List.getD_eq_getElem?_getD, List.getElem?_append,
          if_pos (by omega)]
      rw [hidx, ih (by omega)]

lemma keptRev_eq_reverse :
    ∀ (col : List (Option Tile)), keptRev col col.length = (keptWithRow 0 col).reverse := by
  intro col
  induction col using List.reverseRecOn with
  | nil => rfl
  | append_singleton col o ih =>
      have hlen : (col ++ [o]).length = col.length + 1 := by simp
      rw [hlen]
      unfold keptRev
      have hgd : (col ++ [o]).getD col.length none = o := by
        rw [List.getD_eq_getElem?_getD, List.getElem?_append_right (le_refl _)]
        simp
      rw [hgd, keptRev_append col [o] col.length (le_refl _), ih,
        keptWithRow_append col [o] 0, List.reverse_append]
      congr 1
      cases o with
      | none => simp [keptWithRow]
      | some t =>
          by_cases hexp : t.state = TState.exploding <;>
            simp [keptWithRow, hexp]

lemma grid_map_col (f : Nat × List (Option Tile) → List (Option Tile))
    (g : List (List (Option Tile))) (x : Nat) (hx : x < g.length) :
    (g.enum.map f).getD x [] = f (x, g.getD x []) := by
  rw [List.getD_eq_getElem?_getD, List.getElem?_map,
    List.getElem?_eq_getElem (by simpa [List.enum_length] using hx),
    List.getElem_enum]
  rw [List.getD_eq_getElem?_getD, List.getElem?_eq_getElem hx]
  rfl

lemma get_reverse_index {α : Type} (K : List α) (i j : Nat) (hi : i < K.length)
    (hj : j < K.reverse.length) (hij : i + j + 1 = K.length) :
    K.reverse.get ⟨j, hj⟩ = K.get ⟨i, hi⟩ := by
  have hj2 : j = K.length - 1 - i := by omega
  subst hj2
  exact List.get_reverse K i _ hi

lemma getElem?_reverse_of {α : Type} (K : List α) (i j : Nat)
    (hij : i + j + 1 = K.length) : K.reverse[j]? = K[i]? := by
  have hj : j < K.reverse.length := by rw [List.length_reverse]; omega
  have hi : i < K.length := by omega
  rw [List.getElem?_eq_getElem hj, List.getElem?_eq_getElem hi]
  congr 1
  show K.reverse.get ⟨j, hj⟩ = K.get ⟨i, hi⟩
  exact get_reverse_index K i j hi hj hij

/-- C8: applyGravity processes each column independently — the output column
at index x is the compaction of the input column at index x — and on one
column the surviving (non-Exploding) tiles, read top to bottom with their rows
(keptWithRow), land in the same relative order on the bottommost rows
length−k … length−1, a moved tile carrying its updated grid coordinates; the
returned movement records are exactly one {tile, fromY, toY} record per
surviving tile whose row changed and none for any other tile; and the sample
column [Tile, null, Tile, null] compacts to [null, null, Tile, Tile] with the
two tiles in their original relative order. -/
theorem applyGravity_compacts (g : List (List (Option Tile))) (x : Nat)
    (hx : x < g.length) :
    ((applyGravity g).1.length = g.length ∧
     (applyGravity g).1.getD x [] = (applyGravityCol x (g.getD x [])).1) ∧
    (∀ col : List (Option Tile),
      (applyGravityCol x col).1.length = col.length ∧
      (keptWithRow 0 col).length ≤ col.length ∧
      (∀ (i : Nat) (p : Nat × Tile), (keptWithRow 0 col)[i]? = some p →
        (applyGravityCol x col).1.getD
            (col.length - (keptWithRow 0 col).length + i) none =
          some (if p.1 = col.length - (keptWithRow 0 col).length + i then p.2
                else setGridPosition p.2 x
                  (col.length - (keptWithRow 0 col).length + i))) ∧
      (∀ (i : Nat) (p : Nat × Tile), (keptWithRow 0 col)[i]? = some p →
        p.1 ≠ col.length - (keptWithRow 0 col).length + i →
        (⟨setGridPosition p.2 x (col.length - (keptWithRow 0 col).length + i),
          p.1, col.length - (keptWithRow 0 col).length + i⟩ : Movement)
          ∈ (applyGravityCol x col).2) ∧
      (∀ m ∈ (applyGravityCol x col).2,
        ∃ (i : Nat) (p : Nat × Tile), (keptWithRow 0 col)[i]? = some p ∧
          p.1 ≠ col.length - (keptWithRow 0 col).length + i ∧
          m = ⟨setGridPosition p.2 x (col.length - (keptWithRow 0 col).length + i),
               p.1, col.length - (keptWithRow 0 col).length + i⟩)) ∧
    applyGravityCol 0 [some (mkTile 1 0 0 'A' 1 TType.normal), none,
        some (mkTile 2 0 2 'B' 1 TType.normal), none] =
      ([none, none, some (setGridPosition (mkTile 1 0 0 'A' 1 TType.normal) 0 2),
        some (setGridPosition (mkTile 2 0 2 'B' 1 TType.normal) 0 3)],
       [⟨setGridPosition (mkTile 2 0 2 'B' 1 TType.normal) 0 3, 2, 3⟩,
        ⟨setGridPosition (mkTile 1 0 0 'A' 1 TType.normal) 0 2, 0, 2⟩]) := by
  refine ⟨⟨?_, ?_⟩, ?_, ?_⟩
  · simp [applyGravity, List.enum_length]
  · rw [show (applyGravity g).1
        = g.enum.map (fun p => (applyGravityCol p.1 p.2).1) from rfl]
    exact grid_map_col _ g x hx
  · intro col
    have heq := gravityColAux_eq x col.length col (col.length - 1) [] (by omega)
    have hres1 : (applyGravityCol x col).1
        = placeRev x (keptRev col col.length) (col.length - 1) col := by
      rw [applyGravityCol, heq]
    have hres2 : (applyGravityCol x col).2
        = movesRev x (keptRev col col.length) (col.length - 1) := by
      rw [applyGravityCol, heq]
      simp
    have hrev := keptRev_eq_reverse col
    have hrlen : (keptRev col col.length).length = (keptWithRow 0 col).length := by
      rw [hrev, List.length_reverse]
    have hklen : (keptWithRow 0 col).length ≤ col.length := by
      have := keptRev_length_le col col.length
      omega
    refine ⟨by rw [hres1, placeRev_length], hklen, ?_, ?_, ?_⟩
    · -- every surviving tile lands on its compacted row, restamped if moved
      intro i p hip
      obtain ⟨hi, hKi⟩ := List.getElem?_eq_some.mp hip
      have hj : (keptWithRow 0 col).length - 1 - i
          < (keptRev col col.length).length := by omega
      have hplace := placeRev_getD_place x (keptRev col col.length)
        (col.length - 1) col (by omega)
        (keptRev_rowsFit col col.length (col.length - 1) (by omega))
        (keptRev_pairwise col col.length)
        (fun q hq => (keptRev_spec col col.length q hq).2.1)
        ((keptWithRow 0 col).length - 1 - i) hj
      have hrget : (keptRev col col.length).get
          ⟨(keptWithRow 0 col).length - 1 - i, hj⟩ = p := by
        have h1 : (keptRev col col.length)[(keptWithRow 0 col).length - 1 - i]?
            = some ((keptRev col col.length).get
              ⟨(keptWithRow 0 col).length - 1 - i, hj⟩) := by
          rw [List.get_eq_getElem]
          exact List.getElem?_eq_getElem hj
        have h2 : (keptRev col col.length)[(keptWithRow 0 col).length - 1 - i]?
            = (keptWithRow 0 col)[i]? := by
          rw [hrev]
          exact getElem?_reverse_of (keptWithRow 0 col) i _ (by omega)
        exact Option.some_injective _ (h1.symm.trans (h2.trans hip))
      have hidx : (col.length - 1) - ((keptWithRow 0 col).length - 1 - i)
          = col.length - (keptWithRow 0 col).length + i := by omega
      rw [hidx, hrget] at hplace
      rw [hres1]
      exact hplace
    · -- every moved tile has its movement record
      intro i p hip hne
      obtain ⟨hi, hKi⟩ := List.getElem?_eq_some.mp hip
      have hj : (keptWithRow 0 col).length - 1 - i
          < (keptRev col col.length).length := by omega
      have hrget : (keptRev col col.length).get
          ⟨(keptWithRow 0 col).length - 1 - i, hj⟩ = p := by
        have h1 : (keptRev col col.length)[(keptWithRow 0 col).length - 1 - i]?
            = some ((keptRev col col.length).get
              ⟨(keptWithRow 0 col).length - 1 - i, hj⟩) := by
          rw [List.get_eq_getElem]
          exact List.getElem?_eq_getElem hj
        have h2 : (keptRev col col.length)[(keptWithRow 0 col).length - 1 - i]?
            = (keptWithRow 0 col)[i]? := by
          rw [hrev]
          exact getElem?_reverse_of (keptWithRow 0 col) i _ (by omega)
        exact Option.some_injective _ (h1.symm.trans (h2.trans hip))
      have hidx : (col.length - 1) - ((keptWithRow 0 col).length - 1 - i)
          = col.length - (keptWithRow 0 col).length + i := by omega
      have hmem := movesRev_mem_of x (keptRev col col.length) (col.length - 1)
        ((keptWithRow 0 col).length - 1 - i) hj (by rw [hrget, hidx]; exact hne)
      rw [hrget, hidx] at hmem
      rw [hres2]
      exact hmem
    · -- no movement record without a moved surviving tile
      intro m hm
      rw [hres2] at hm
      obtain ⟨j, hj, hne, hm2⟩ := movesRev_mem_elim x _ _ m hm
      have hjk : j < (keptWithRow 0 col).length := by omega
      refine ⟨(keptWithRow 0 col).length - 1 - j,
        (keptRev col col.length).get ⟨j, hj⟩, ?_, ?_, ?_⟩
      · have h1 : (keptRev col col.length)[j]?
            = some ((keptRev col col.length).get ⟨j, hj⟩) := by
          rw [List.get_eq_getElem]
          exact List.getElem?_eq_getElem hj
        have h2 : (keptRev col col.length)[j]?
            = (keptWithRow 0 col)[(keptWithRow 0 col).length - 1 - j]? := by
          rw [hrev]
          exact getElem?_reverse_of (keptWithRow 0 col)
            ((keptWithRow 0 col).length - 1 - j) j (by omega)
        exact h2.symm.trans h1
      · have hidx : (col.length - 1) - j
            = col.length - (keptWithRow 0 col).length
              + ((keptWithRow 0 col).length - 1 - j) := by omega
        rw [← hidx]
        exact hne
      · have hidx : (col.length - 1) - j
            = col.length - (keptWithRow 0 col).length
              + ((keptWithRow 0 col).length - 1 - j) := by omega
        rw [← hidx]
        exact hm2
  · decide

/-- Witness for C8 on a one-column grid holding the sample column. -/
theorem applyGravity_compacts_witness :
    (let g0 : List (List (Option Tile)) :=
      [[some (mkTile 1 0 0 'A' 1 TType.normal), none,
        some (mkTile 2 0 2 'B' 1 TType.normal), none]]
    ((applyGravity g0).1.length = g0.length ∧
     (applyGravity g0).1.getD 0 [] = (applyGravityCol 0 (g0.getD 0 [])).1) ∧
    (∀ col : List (Option Tile),
      (applyGravityCol 0 col).1.length = col.length ∧
      (keptWithRow 0 col).length ≤ col.length ∧
      (∀ (i : Nat) (p : Nat × Tile), (keptWithRow 0 col)[i]? = some p →
        (applyGravityCol 0 col).1.getD
            (col.length - (keptWithRow 0 col).length + i) none =
          some (if p.1 = col.length - (keptWithRow 0 col).length + i then p.2
                else setGridPosition p.2 0
                  (col.length - (keptWithRow 0 col).length + i))) ∧
      (∀ (i : Nat) (p : Nat × Tile), (keptWithRow 0 col)[i]? = some p →
        p.1 ≠ col.length - (keptWithRow 0 col).length + i →
        (⟨setGridPosition p.2 0 (col.length - (keptWithRow 0 col).length + i),
          p.1, col.length - (keptWithRow 0 col).length + i⟩ : Movement)
          ∈ (applyGravityCol 0 col).2) ∧
      (∀ m ∈ (applyGravityCol 0 col).2,
        ∃ (i : Nat) (p : Nat × Tile), (keptWithRow 0 col)[i]? = some p ∧
          p.1 ≠ col.length - (keptWithRow 0 col).length + i ∧
          m = ⟨setGridPosition p.2 0 (col.length - (keptWithRow 0 col).length + i),
               p.1, col.length - (keptWithRow 0 col).length + i⟩)) ∧
    applyGravityCol 0 [some (mkTile 1 0 0 'A' 1 TType.normal), none,
        some (mkTile 2 0 2 'B' 1 TType.normal), none] =
      ([none, none, some (setGridPosition (mkTile 1 0 0 'A' 1 TType.normal) 0 2),
        some (setGridPosition (mkTile 2 0 2 'B' 1 TType.normal) 0 3)],
       [⟨setGridPosition (mkTile 2 0 2 'B' 1 TType.normal) 0 3, 2, 3⟩,
        ⟨setGridPosition (mkTile 1 0 0 'A' 1 TType.normal) 0 2, 0, 2⟩])) :=
  applyGravity_compacts
    [[some (mkTile 1 0 0 'A' 1 TType.normal), none,
      some (mkTile 2 0 2 'B' 1 TType.normal), none]] 0 (by norm_num)

/-- Data of one freshly generated tile: the random letter/value/special-type
draw produced by Grid.generateRandomTile together with the identity of the
new Tile object.  Randomness is supplied from outside as a function of the
slot being filled. -/
structure TileData where
  id : Nat
  letter : Char
  value : Nat
  type : TType
deriving DecidableEq, Repr

/-- Grid.createTileAt: build a new Tile at the given grid coordinates from
the generated data and store it in the slot. -/
def createTileAt (gen : Nat → Nat → TileData) (x y : Nat) : Tile :=
  mkTile (gen x y).id x y (gen x y).letter (gen x y).value (gen x y).type

/-- The y-loop of Grid.refillGrid on one column, y ascending from the given
row: every empty slot receives a freshly created tile, and created tiles are
collected in creation order. -/
def refillColAux (gen : Nat → Nat → TileData) (x : Nat) :
    Nat → List (Option Tile) → List (Option Tile) × List Tile
  | _, [] => ([], [])
  | y, none :: rest =>
      let t := createTileAt gen x y
      let r := refillColAux gen x (y+1) rest
      (some t :: r.1, t :: r.2)
  | y, some t :: rest =>
      let r := refillColAux gen x (y+1) rest
      (some t :: r.1, r.2)

/-- Grid.refillGrid: fill every empty slot, column by column and top to
bottom, returning the refilled grid and the created tiles. -/
def refillGrid (gen : Nat → Nat → TileData) (g : List (List (Option Tile))) :
    List (List (Option Tile)) × List Tile :=
  (g.enum.map fun p => (refillColAux gen p.1 0 p.2).1,
   (g.enum.map fun p => (refillColAux gen p.1 0 p.2).2).flatten)

/-- Well-formedness of one column at index x (the Grid data-model invariant of
the spec): every occupied slot holds a tile whose stored coordinates name
exactly that slot. -/
def wellFormedCol (x : Nat) (col : List (Option Tile)) : Prop :=
  ∀ (y : Nat) (t : Tile), col.getD y none = some t → t.gridX = x ∧ t.gridY = y

/-- Well-formedness of the whole grid, column by column. -/
def wellFormedGrid (g : List (List (Option Tile))) : Prop :=
  ∀ x : Nat, wellFormedCol x (g.getD x [])

lemma gravityColAux_wf (x : Nat) :
    ∀ (n : Nat) (col : List (Option Tile)) (wi : Nat) (moves : List Movement),
      wellFormedCol x col → wellFormedCol x (gravityColAux x n col wi moves).1 := by
  intro n
  induction n with
  | zero => intro col wi moves h; exact h
  | succ n ih =>
      intro col wi moves hwf
      unfold gravityColAux
      rcases hslot : col.getD n none with _ | t <;> dsimp only
      · exact ih col wi moves hwf
      · by_cases hexp : t.state = TState.exploding
        · rw [if_neg (not_not_intro hexp)]
          exact ih col wi moves hwf
        · rw [if_pos hexp]
          by_cases hwi : n = wi
          · rw [if_neg (by omega : ¬ n ≠ wi)]
            exact ih col (wi - 1) moves hwf
          · rw [if_pos hwi]
            refine ih _ (wi - 1) _ ?_
            intro y t2 hy
            by_cases hyn : y = n
            · subst hyn
              have hnlen : y < col.length := by
                by_contra hc
                rw [getD_of_le_length col y (by omega)] at hslot
                cases hslot
              rw [getD_set_self2 _ _ _ (by simpa using hnlen)] at hy
              cases hy
            · rw [getD_set_ne2 _ _ _ _ (fun hh => hyn hh.symm)] at hy
              by_cases hywi : y = wi
              · subst hywi
                by_cases hwlen : y < col.length
                · rw [getD_set_self2 _ _ _ hwlen] at hy
                  obtain rfl : setGridPosition t x y = t2 :=
                    Option.some_injective _ hy
                  exact ⟨rfl, rfl⟩
                · rw [getD_of_le_length _ _ (by simpa using hwlen)] at hy
                  cases hy
              · rw [getD_set_ne2 _ _ _ _ (fun hh => hywi hh.symm)] at hy
                exact hwf y t2 hy

lemma applyGravityCol_wf (x : Nat) (col : List (Option Tile))
    (h : wellFormedCol x col) : wellFormedCol x (applyGravityCol x col).1 :=
  gravityColAux_wf x col.length col (col.length - 1) [] h

lemma applyGravityCol_length (x : Nat) (col : List (Option Tile)) :
    (applyGravityCol x col).1.length = col.length := by
  rw [applyGravityCol,
    gravityColAux_eq x col.length col (col.length - 1) [] (by omega)]
  exact placeRev_length x _ _ _

lemma refillColAux_length (gen : Nat → Nat → TileData) (x : Nat) :
    ∀ (col : List (Option Tile)) (y : Nat),
      (refillColAux gen x y col).1.length = col.length := by
  intro col
  induction col with
  | nil => intro y; rfl
  | cons o rest ih =>
      intro y
      cases o <;> simp [refillColAux, ih]

lemma refillColAux_spec (gen : Nat → Nat → TileData) (x : Nat) :
    ∀ (col : List (Option Tile)) (y0 : Nat),
      (∀ (i : Nat) (t : Tile), col.getD i none = some t →
        t.gridX = x ∧ t.gridY = y0 + i) →
      (∀ (i : Nat) (t : Tile), (refillColAux gen x y0 col).1.getD i none = some t →
        t.gridX = x ∧ t.gridY = y0 + i) ∧
      (∀ i : Nat, i < col.length →
        ∃ t : Tile, (refillColAux gen x y0 col).1.getD i none = some t) := by
  intro col
  induction col with
  | nil =>
      intro y0 _
      refine ⟨?_, ?_⟩
      · intro i t hy
        rw [show (refillColAux gen x y0 []).1 = [] from rfl] at hy
        cases hy
      · intro i hi
        simp at hi
  | cons o rest ih =>
      intro y0 hin
      have hin2 : ∀ (i : Nat) (t : Tile), rest.getD i none = some t →
          t.gridX = x ∧ t.gridY = (y0 + 1) + i := by
        intro i t hy
        have := hin (i+1) t (by rw [List.getD_cons_succ] at *; exact hy)
        exact ⟨this.1, by rw [this.2]; omega⟩
      obtain ⟨ihwf, ihfull⟩ := ih (y0 + 1) hin2
      cases o with
      | none =>
          refine ⟨?_, ?_⟩
          · intro i t hy
            match i with
            | 0 =>
                rw [show (refillColAux gen x y0 (none :: rest)).1
                  = some (createTileAt gen x y0) :: (refillColAux gen x (y0+1) rest).1
                  from rfl, List.getD_cons_zero] at hy
                obtain rfl : createTileAt gen x y0 = t := Option.some_injective _ hy
                exact ⟨rfl, by simp [createTileAt, mkTile]⟩
            | i+1 =>
                rw [show (refillColAux gen x y0 (none :: rest)).1
                  = some (createTileAt gen x y0) :: (refillColAux gen x (y0+1) rest).1
                  from rfl, List.getD_cons_succ] at hy
                have := ihwf i t hy
                exact ⟨this.1, by rw [this.2]; omega⟩
          · intro i hi
            match i with
            | 0 => exact ⟨createTileAt gen x y0, rfl⟩
            | i+1 =>
                obtain ⟨t, ht⟩ := ihfull i (by simpa using Nat.lt_of_succ_lt_succ hi)
                exact ⟨t, by
                  rw [show (refillColAux gen x y0 (none :: rest)).1
                    = some (createTileAt gen x y0) :: (refillColAux gen x (y0+1) rest).1
                    from rfl, List.getD_cons_succ]
                  exact ht⟩
      | some u =>
          refine ⟨?_, ?_⟩
          · intro i t hy
            match i with
            | 0 =>
                rw [show (refillColAux gen x y0 (some u :: rest)).1
                  = some u :: (refillColAux gen x (y0+1) rest).1 from rfl,
                  List.getD_cons_zero] at hy
                have := hin 0 t (by rw [List.getD_cons_zero]; exact hy)
                exact this
            | i+1 =>
                rw [show (refillColAux gen x y0 (some u :: rest)).1
                  = some u :: (refillColAux gen x (y0+1) rest).1 from rfl,
                  List.getD_cons_succ] at hy
                have := ihwf i t hy
                exact ⟨this.1, by rw [this.2]; omega⟩
          · intro i hi
            match i with
            | 0 => exact ⟨u, rfl⟩
            | i+1 =>
                obtain ⟨t, ht⟩ := ihfull i (by simpa using Nat.lt_of_succ_lt_succ hi)
                exact ⟨t, by
                  rw [show (refillColAux gen x y0 (some u :: rest)).1
                    = some u :: (refillColAux gen x (y0+1) rest).1 from rfl,
                    List.getD_cons_succ]
                  exact ht⟩

lemma getD_grid_of_le (g : List (List (Option Tile))) (x : Nat)
    (h : g.length ≤ x) : g.getD x [] = [] := by
  rw [List.getD_eq_getElem?_getD, List.getElem?_eq_none h]
  rfl

/-- C9: starting from any grid satisfying the Grid data-model invariant
(stored coordinates match the occupied slot), applyGravity followed by
refillGrid yields a grid of the same dimensions in which every slot holds
exactly one tile: no slot is empty, every held tile carries the coordinates of
its slot, and consequently no tile value occupies two different slots. -/
theorem gravity_refill_slot_invariant (gen : Nat → Nat → TileData)
    (g : List (List (Option Tile))) (hwf : wellFormedGrid g) :
    (refillGrid gen (applyGravity g).1).1.length = g.length ∧
    (∀ x : Nat, x < g.length →
      ((refillGrid gen (applyGravity g).1).1.getD x []).length
        = (g.getD x []).length ∧
      (∀ y : Nat, y < (g.getD x []).length →
        ∃ t : Tile,
          ((refillGrid gen (applyGravity g).1).1.getD x []).getD y none = some t ∧
          t.gridX = x ∧ t.gridY = y) ∧
      (∀ (y : Nat) (t : Tile),
        ((refillGrid gen (applyGravity g).1).1.getD x []).getD y none = some t →
        t.gridX = x ∧ t.gridY = y)) ∧
    (∀ (x y x2 y2 : Nat) (t : Tile),
      ((refillGrid gen (applyGravity g).1).1.getD x []).getD y none = some t →
      ((refillGrid gen (applyGravity g).1).1.getD x2 []).getD y2 none = some t →
      x = x2 ∧ y = y2) := by
  have hg1len : (applyGravity g).1.length = g.length := by
    simp [applyGravity, List.enum_length]
  have hg2len : (refillGrid gen (applyGravity g).1).1.length = g.length := by
    simp [refillGrid, List.enum_length, hg1len]
  have hcol1 : ∀ x : Nat, x < g.length →
      (applyGravity g).1.getD x [] = (applyGravityCol x (g.getD x [])).1 := by
    intro x hx
    rw [show (applyGravity g).1
      = g.enum.map (fun p => (applyGravityCol p.1 p.2).1) from rfl]
    exact grid_map_col _ g x hx
  have hcol2 : ∀ x : Nat, x < g.length →
      (refillGrid gen (applyGravity g).1).1.getD x []
        = (refillColAux gen x 0 ((applyGravity g).1.getD x [])).1 := by
    intro x hx
    rw [show (refillGrid gen (applyGravity g).1).1
      = (applyGravity g).1.enum.map (fun p => (refillColAux gen p.1 0 p.2).1)
      from rfl]
    exact grid_map_col _ _ x (by omega)
  have hmain : ∀ x : Nat, x < g.length →
      ((refillGrid gen (applyGravity g).1).1.getD x []).length
        = (g.getD x []).length ∧
      (∀ y : Nat, y < (g.getD x []).length →
        ∃ t : Tile,
          ((refillGrid gen (applyGravity g).1).1.getD x []).getD y none = some t ∧
          t.gridX = x ∧ t.gridY = y) ∧
      (∀ (y : Nat) (t : Tile),
        ((refillGrid gen (applyGravity g).1).1.getD x []).getD y none = some t →
        t.gridX = x ∧ t.gridY = y) := by
    intro x hx
    have hwfin : ∀ (i : Nat) (t : Tile),
        ((applyGravity g).1.getD x []).getD i none = some t →
        t.gridX = x ∧ t.gridY = 0 + i := by
      intro i t hslot
      rw [hcol1 x hx] at hslot
      have := applyGravityCol_wf x (g.getD x []) (hwf x) i t hslot
      exact ⟨this.1, by rw [this.2]; omega⟩
    obtain ⟨hwf2, hfull2⟩ :=
      refillColAux_spec gen x ((applyGravity g).1.getD x []) 0 hwfin
    have hlen2 : ((refillGrid gen (applyGravity g).1).1.getD x []).length
        = (g.getD x []).length := by
      rw [hcol2 x hx, refillColAux_length, hcol1 x hx, applyGravityCol_length]
    refine ⟨hlen2, ?_, ?_⟩
    · intro y hy
      have hy2 : y < ((applyGravity g).1.getD x []).length := by
        rw [hcol1 x hx, applyGravityCol_length]
        exact hy
      obtain ⟨t, ht⟩ := hfull2 y hy2
      have hco := hwf2 y t ht
      refine ⟨t, ?_, hco.1, by rw [hco.2]; omega⟩
      rw [hcol2 x hx]
      exact ht
    · intro y t hslot
      rw [hcol2 x hx] at hslot
      have hco := hwf2 y t hslot
      exact ⟨hco.1, by rw [hco.2]; omega⟩
  refine ⟨hg2len, hmain, ?_⟩
  intro x y x2 y2 t h1 h2
  have hxlt : x < g.length := by
    by_contra hc
    rw [getD_grid_of_le _ x (by omega)] at h1
    cases h1
  have hx2lt : x2 < g.length := by
    by_contra hc
    rw [getD_grid_of_le _ x2 (by omega)] at h2
    cases h2
  have hc1 := (hmain x hxlt).2.2 y t h1
  have hc2 := (hmain x2 hx2lt).2.2 y2 t h2
  omega

/-- Witness for C9 on a concrete two-column grid with a hole and an exploding
tile, refilled with fixed generated tiles. -/
theorem gravity_refill_slot_invariant_witness :
    (let gen : Nat → Nat → TileData := fun _ _ => ⟨9, 'Z', 10, TType.normal⟩
    let g0 : List (List (Option Tile)) :=
      [[some (mkTile 1 0 0 'A' 1 TType.normal), none],
       [some (mkTile 2 1 0 'B' 1 TType.normal),
        some (mkTile 3 1 1 'C' 1 TType.normal)]]
    (refillGrid gen (applyGravity g0).1).1.length = g0.length ∧
    (∀ x : Nat, x < g0.length →
      ((refillGrid gen (applyGravity g0).1).1.getD x []).length
        = (g0.getD x []).length ∧
      (∀ y : Nat, y < (g0.getD x []).length →
        ∃ t : Tile,
          ((refillGrid gen (applyGravity g0).1).1.getD x []).getD y none = some t ∧
          t.gridX = x ∧ t.gridY = y) ∧
      (∀ (y : Nat) (t : Tile),
        ((refillGrid gen (applyGravity g0).1).1.getD x []).getD y none = some t →
        t.gridX = x ∧ t.gridY = y)) ∧
    (∀ (x y x2 y2 : Nat) (t : Tile),
      ((refillGrid gen (applyGravity g0).1).1.getD x []).getD y none = some t →
      ((refillGrid gen (applyGravity g0).1).1.getD x2 []).getD y2 none = some t →
      x = x2 ∧ y = y2)) :=
  gravity_refill_slot_invariant (fun _ _ => ⟨9, 'Z', 10, TType.normal⟩)
    [[some (mkTile 1 0 0 'A' 1 TType.normal), none],
     [some (mkTile 2 1 0 'B' 1 TType.normal),
      some (mkTile 3 1 1 'C' 1 TType.normal)]]
    (by
      intro x
      match x with
      | 0 =>
          intro y t h
          match y with
          | 0 => exact ⟨congrArg Tile.gridX (Option.some_injective _ h).symm,
              congrArg Tile.gridY (Option.some_injective _ h).symm⟩
          | 1 => cases h
          | (n+2) => cases h
      | 1 =>
          intro y t h
          match y with
          | 0 => exact ⟨congrArg Tile.gridX (Option.some_injective _ h).symm,
              congrArg Tile.gridY (Option.some_injective _ h).symm⟩
          | 1 => exact ⟨congrArg Tile.gridX (Option.some_injective _ h).symm,
              congrArg Tile.gridY (Option.some_injective _ h).symm⟩
          | (n+2) => cases h
      | (n+2) =>
          intro y t h
          cases h)

end WordMatch